import Mathlib

/-!
Verification of the Z-Hub catalog front-end core logic.

The repository is a Vue single-page catalog with three views (compression
modules, compositions, benchmark datasets).  The logic verified here is the
client-side data pipeline of those views: multi-candidate asset loading with
fallback, facet extraction, free-text search filtering, grouping by category,
and the GitHub-issue submission URL builder.

Each definition is a direct shallow embedding of the corresponding function
in `src/pages/Compositions.vue` (which holds both the Compositions view and
the Modules view script) and the Datasets view component.  Network fetches
are modelled by their observable outcomes (`FetchOutcome`): a candidate
either fails (network error, timeout, non-OK status, JSON syntax error) or
succeeds with a parsed JSON payload, which is either an array of records or
some other JSON value (`Payload`).  JavaScript expressions that can throw a
`TypeError` (accessing `.some` on a missing field) are embedded in the
`Except String` monad.
-/

namespace ZHub

/-- Does the first list start the second one?  Used to build the substring
check below. -/
def startsWithL : List Char → List Char → Bool
  | [], _ => true
  | _ :: _, [] => false
  | a :: as, b :: bs => a == b && startsWithL as bs

/-- Model of JavaScript `hay.includes(needle)`: `needle` occurs as a
contiguous substring of `hay` (always true for the empty needle). -/
def containsSub (needle : List Char) : List Char → Bool
  | [] => needle.isEmpty
  | b :: bs => startsWithL needle (b :: bs) || containsSub needle bs

/-- Model of JavaScript `s.includes(q)` on strings. -/
def jsIncludes (s q : String) : Bool :=
  containsSub q.toList s.toList

/-- ASCII lower-casing of one character, the computable core of
`Char.toLower`. -/
def charLower (c : Char) : Char :=
  if 'A' ≤ c ∧ c ≤ 'Z' then Char.ofNat (c.toNat + 32) else c

/-- Model of JavaScript `s.toLowerCase()` (ASCII range). -/
def strLower (s : String) : String :=
  (s.toList.map charLower).asString

instance {ε α : Type} [DecidableEq ε] [DecidableEq α] : DecidableEq (Except ε α) := fun a b =>
  match a, b with
  | .ok x, .ok y =>
    if h : x = y then isTrue (by rw [h]) else isFalse (fun he => h (Except.ok.inj he))
  | .error x, .error y =>
    if h : x = y then isTrue (by rw [h]) else isFalse (fun he => h (Except.error.inj he))
  | .ok _, .error _ => isFalse (fun he => Except.noConfusion he)
  | .error _, .ok _ => isFalse (fun he => Except.noConfusion he)

/-- Model of `Array.from(new Set(xs))`: deduplicate keeping the first
occurrence of each element, in order. -/
def setDedup {α : Type} [DecidableEq α] : List α → List α
  | [] => []
  | x :: xs => x :: (setDedup xs).filter (fun y => y ≠ x)

/-- A capability descriptor of a composition: a name plus a description
(`capabilities` entries in `compositions.json`). -/
structure Capability where
  name : String
  description : String
deriving DecidableEq

/-- A composition record as consumed by the Compositions view.  Fields that
the source accesses behind `?.` or existence checks are `Option`s; `tags`
is also optional at the data level (a JSON record may omit it), which lets
us model the unguarded `c.tags.some(...)` access faithfully. -/
structure Composition where
  id : String
  name : String
  description : String
  category : String
  tags : Option (List String)
  usedIn : Option (List String)
  capabilities : Option (List Capability)
deriving DecidableEq

/-- A module record as consumed by the Modules view. -/
structure CompModule where
  id : String
  name : String
  description : String
  category : String
  tags : Option (List String)
  features : List String
deriving DecidableEq

/-- A community dataset record as consumed by the Datasets view. -/
structure Dataset where
  name : String
  description : Option String
  size : Option String
  links : Option (List String)
  tags : Option (List String)
deriving DecidableEq

/-- The dataset submission form state (`uploadForm` in the Datasets view). -/
structure UploadForm where
  name : String
  description : String
  tags : String
  links : String
  size : String
deriving DecidableEq

/-- A parsed JSON payload, abstracted to what the loaders inspect: either an
array of records of type `α` or any other JSON value (`Array.isArray` is the
only structural test the loaders perform). -/
inductive Payload (α : Type) where
  | arr (xs : List α)
  | nonArray
deriving DecidableEq

/-- Observable outcome of one candidate fetch attempt (`tryFetch`): `ok`
when the HTTP response is OK and the body parses as JSON, `fail` on network
error, timeout/abort, non-OK status, or a JSON syntax error. -/
inductive FetchOutcome (α : Type) where
  | ok (p : Payload α)
  | fail
deriving DecidableEq

/-- Model of `Array.isArray(data) ? data : []` . -/
def coerceArr {α : Type} : Payload α → List α
  | .arr xs => xs
  | .nonArray => []

/-- The candidate loop shared by `loadModules` and `loadCommunityDatasets`:
walk the candidates in order and return the payload of the first successful
one, or `none` when every candidate fails. -/
def fetchLoop {α : Type} : List (FetchOutcome α) → Option (Payload α)
  | [] => none
  | .ok p :: _ => some p
  | .fail :: rest => fetchLoop rest

/-- Effectful filter in the `Except` monad, mirroring JavaScript
`Array.prototype.filter` with a predicate that may throw: the first throw
aborts the whole filter. -/
def filterE {ε α : Type} (p : α → Except ε Bool) : List α → Except ε (List α)
  | [] => .ok []
  | x :: xs =>
    match p x with
    | .error e => .error e
    | .ok true => (filterE p xs).map (fun r => x :: r)
    | .ok false => filterE p xs

/-- Facet list of the Compositions view (`categories` computed): the `'All'`
sentinel followed by the distinct categories of the loaded collection,
sorted by the default JavaScript string order. -/
def categoriesC (coll : List Composition) : List String :=
  "All" :: List.insertionSort (· ≤ ·) (setDedup (coll.map (·.category)))

/-- Facet list of the Modules view (`categories` computed), with the `'all'`
sentinel. -/
def categoriesM (coll : List CompModule) : List String :=
  "all" :: List.insertionSort (· ≤ ·) (setDedup (coll.map (·.category)))

/-- The text-match predicate of `filteredCompositions`, with JavaScript
short-circuit evaluation.  `c.tags.some(...)` is unguarded in the source, so
a missing `tags` throws a `TypeError` when reached; `c.usedIn?.some(...)`
and `c.capabilities?.some(...)` evaluate to `undefined` (falsy) when the
field is missing. -/
def compMatches (query : String) (c : Composition) : Except String Bool :=
  if jsIncludes (strLower c.name) query then .ok true
  else if jsIncludes (strLower c.description) query then .ok true
  else
    match c.tags with
    | none => .error "TypeError"
    | some ts =>
      if ts.any (fun tag => jsIncludes (strLower tag) query) then .ok true
      else if (c.usedIn.getD []).any (fun use => jsIncludes (strLower use) query) then .ok true
      else .ok ((c.capabilities.getD []).any (fun cap =>
        jsIncludes (strLower cap.name) query || jsIncludes (strLower cap.description) query))

/-- The `filteredCompositions` computed of the Compositions view: category
equality filter (when the selection is not the `'All'` sentinel) followed by
the text search filter (when the query is non-empty, lower-cased). -/
def filteredCompositions (coll : List Composition) (selectedCategory searchQuery : String) :
    Except String (List Composition) :=
  let afterCat :=
    if selectedCategory ≠ "All" then coll.filter (fun c => c.category = selectedCategory)
    else coll
  if searchQuery ≠ "" then filterE (compMatches (strLower searchQuery)) afterCat
  else .ok afterCat

/-- The `loadCompositions` function of the Compositions view: a single fetch
of `BASE_URL + 'compositions.json'`; on success the parsed JSON is adopted
as-is, on any failure the collection is left unchanged and only a console
error is emitted (the view has no error state). -/
def loadCompositions (prior : Payload Composition) (outcome : FetchOutcome Composition) :
    Payload Composition × String :=
  match outcome with
  | .ok p => (p, "")
  | .fail => (prior, "")

/-- The single URL requested by `loadCompositions`. -/
def compositionsCandidates (baseUrl : String) : List String :=
  [baseUrl ++ "compositions.json"]

/-- Model of `s.replace(/\/+$/g, '/')`: collapse a trailing run of slashes
into a single slash. -/
def collapseTrailingSlash (s : String) : String :=
  let cs := s.toList
  let stripped := cs.reverse.dropWhile (fun c => c = '/')
  if stripped.length = cs.length then s else (stripped.reverse ++ ['/']).asString

/-- Model of `(import.meta.env.BASE_URL || '/').replace(/\/+$/g, '/').replace(/^$/g, '/')`.
The second replace is unreachable (its input is never empty) and is omitted. -/
def normBase (baseUrl : String) : String :=
  collapseTrailingSlash (if baseUrl = "" then "/" else baseUrl)

/-- Model of the cache-busting map `u => u + (u.includes('?') ? '' : '?ts=' + Date.now())`. -/
def cacheBust (ts : Nat) (u : String) : String :=
  u ++ (if jsIncludes u "?" then "" else "?ts=" ++ toString ts)

/-- The candidate URL list built by `loadModules`, `loadCommunityDatasets`
and `loadSdrbenchDatasets`: base-qualified, root-absolute and relative
forms, deduplicated, then suffixed with the cache-busting parameter. -/
def candidateUrls (asset baseUrl : String) (ts : Nat) : List String :=
  (setDedup [normBase baseUrl ++ asset, "/" ++ asset, asset]).map (cacheBust ts)

/-- The error banner message of `loadModules`. -/
def modulesErrMsg : String := "Failed to load modules. Please try again later."

/-- The candidate loop of `loadModules`: the first successful payload is
adopted through `Array.isArray(data) ? data : []` and the loop stops; when
every candidate fails (and at least one was attempted) `lastErr` is set and
the error banner message is stored; otherwise the error stays cleared. -/
def loadModulesRun (prior : Payload CompModule) (cs : List (FetchOutcome CompModule)) :
    Payload CompModule × String :=
  match fetchLoop cs with
  | some p => (.arr (coerceArr p), "")
  | none => (prior, if cs.isEmpty then "" else modulesErrMsg)

/-- The text-match predicate of the Modules view search filter (inside the
`modulesByCategory` computed): name, description and tags only;
`m.tags.some(...)` is unguarded, so a missing `tags` throws when reached. -/
def moduleMatches (query : String) (m : CompModule) : Except String Bool :=
  if jsIncludes (strLower m.name) query then .ok true
  else if jsIncludes (strLower m.description) query then .ok true
  else
    match m.tags with
    | none => .error "TypeError"
    | some ts => .ok (ts.any (fun t => jsIncludes (strLower t) query))

/-- The filtering stages of the `modulesByCategory` computed: search filter
first (when the query is non-empty), then category equality filter (when the
selection is not the `'all'` sentinel). -/
def modulesFiltered (coll : List CompModule) (searchQuery selectedCategory : String) :
    Except String (List CompModule) :=
  let afterSearch :=
    if searchQuery ≠ "" then filterE (moduleMatches (strLower searchQuery)) coll
    else .ok coll
  afterSearch.map (fun fs =>
    if selectedCategory ≠ "all" then fs.filter (fun m => m.category = selectedCategory) else fs)

/-- One step of the grouping loop of `modulesByCategory`: append the module
to the bucket of its category, creating the bucket at the end on first
occurrence (JavaScript object string keys enumerate in insertion order). -/
def pushToBucket (acc : List (String × List CompModule)) (m : CompModule) :
    List (String × List CompModule) :=
  if acc.any (fun p => p.1 = m.category) then
    acc.map (fun p => if p.1 = m.category then (p.1, p.2 ++ [m]) else p)
  else acc ++ [(m.category, [m])]

/-- The grouping stage of `modulesByCategory`: `filtered.forEach(...)` over
an initially empty object. -/
def groupModules (ms : List CompModule) : List (String × List CompModule) :=
  ms.foldl pushToBucket []

/-- The whole `modulesByCategory` computed: filtering stages then grouping. -/
def modulesByCategory (coll : List CompModule) (searchQuery selectedCategory : String) :
    Except String (List (String × List CompModule)) :=
  (modulesFiltered coll searchQuery selectedCategory).map groupModules

/-- The error banner message of `loadCommunityDatasets`. -/
def communityErrMsg : String := "Failed to load community datasets. Please try again later."

/-- The candidate loop of `loadCommunityDatasets` in the Datasets view,
identical in shape to `loadModules`: first success adopted through
`Array.isArray`, total failure stores the error message. -/
def loadCommunityRun (prior : Payload Dataset) (cs : List (FetchOutcome Dataset)) :
    Payload Dataset × String :=
  match fetchLoop cs with
  | some p => (.arr (coerceArr p), "")
  | none => (prior, if cs.isEmpty then "" else communityErrMsg)

/-- The override loop of `loadSdrbenchDatasets`: on the first successful
candidate the payload replaces the current collection only when it is a
non-empty array, and the loop stops in either case; failures are non-fatal
and the loop advances. -/
def sdrOverrideLoop (cur : Payload Dataset) : List (FetchOutcome Dataset) → Payload Dataset
  | [] => cur
  | .ok p :: _ =>
    match p with
    | .arr d => if d.isEmpty then cur else .arr d
    | .nonArray => cur
  | .fail :: rest => sdrOverrideLoop cur rest

/-- The whole `loadSdrbenchDatasets`: seed the collection with the embedded
SDRBench list (guarded by `Array.isArray`), then optionally override it from
the fetched asset; `sdrError` is cleared at the start and never set. -/
def loadSdrbenchRun (embedded : Payload Dataset) (cs : List (FetchOutcome Dataset)) :
    Payload Dataset × String :=
  (sdrOverrideLoop (.arr (coerceArr embedded)) cs, "")

/-- Hex digit characters used by percent-encoding (upper case, as produced
by `URLSearchParams`). -/
def hexDig (n : Nat) : Char :=
  match n with
  | 0 => '0' | 1 => '1' | 2 => '2' | 3 => '3' | 4 => '4'
  | 5 => '5' | 6 => '6' | 7 => '7' | 8 => '8' | 9 => '9'
  | 10 => 'A' | 11 => 'B' | 12 => 'C' | 13 => 'D' | 14 => 'E'
  | _ => 'F'

/-- UTF-8 encoding of a Unicode code point, as a list of byte values. -/
def utf8EncodeChar (n : Nat) : List Nat :=
  if n < 0x80 then [n]
  else if n < 0x800 then [0xC0 + n / 64, 0x80 + n % 64]
  else if n < 0x10000 then [0xE0 + n / 4096, 0x80 + n / 64 % 64, 0x80 + n % 64]
  else [0xF0 + n / 262144, 0x80 + n / 4096 % 64, 0x80 + n / 64 % 64, 0x80 + n % 64]

/-- The characters serialized verbatim by `URLSearchParams`
(`application/x-www-form-urlencoded`): ASCII alphanumerics and `*-._`,
stated on the code point. -/
def isSafeChar (c : Char) : Bool :=
  (0x30 ≤ c.toNat && c.toNat ≤ 0x39) || (0x41 ≤ c.toNat && c.toNat ≤ 0x5A) ||
  (0x61 ≤ c.toNat && c.toNat ≤ 0x7A) ||
  c.toNat == 0x2A || c.toNat == 0x2D || c.toNat == 0x2E || c.toNat == 0x5F

/-- Serialization of one character by `URLSearchParams`: space becomes `+`,
safe characters pass through, anything else has each of its UTF-8 bytes
percent-encoded. -/
def encChar (c : Char) : List Char :=
  if c = ' ' then ['+']
  else if isSafeChar c then [c]
  else (utf8EncodeChar c.toNat).flatMap (fun b => ['%', hexDig (b / 16), hexDig (b % 16)])

/-- Model of `URLSearchParams` serialization of a single key or value. -/
def formUrlEncode (s : String) : List Char :=
  s.toList.flatMap encChar

/-- Model of the query-string serialization of `new URLSearchParams({...})`:
`key=value` pieces joined by `&`. -/
def urlParamsSerialize (ps : List (String × String)) : List Char :=
  match ps with
  | [] => []
  | [(k, v)] => formUrlEncode k ++ '=' :: formUrlEncode v
  | (k, v) :: rest => formUrlEncode k ++ '=' :: formUrlEncode v ++ '&' :: urlParamsSerialize rest

/-- The issue title built by `buildIssueUrl`. -/
def issueTitle (f : UploadForm) : String :=
  "[Dataset] Contributing " ++ f.name

/-- The issue body built by `buildIssueUrl`: fixed section headers
interleaved with the form fields, joined by newlines. -/
def issueBody (f : UploadForm) : String :=
  String.intercalate "\n"
    ["### Dataset name", f.name, "", "### Description", f.description, "",
     "### Data URL(s)", f.links, "", "### Size", f.size, "",
     "### Tags", f.tags, "", "_Submitted via Z-Hub site_"]

/-- The base of the issue URL: the repository issue page when a slug was
resolved, the generic new-repository page otherwise. -/
def issueBase (slug : String) : String :=
  if slug ≠ "" then "https://github.com/" ++ slug ++ "/issues/new" else "https://github.com/new"

/-- The `buildIssueUrl` function of the Datasets view. -/
def buildIssueUrl (slug : String) (f : UploadForm) : String :=
  issueBase slug ++ "?" ++
    (urlParamsSerialize [("title", issueTitle f), ("body", issueBody f), ("labels", "dataset")]).asString

/-- Numeric value of a hexadecimal digit character, for the decoding side
used to state what a query parameter "decodes to" (`+` is a space, `%XY` is
a byte, anything else is its own code). -/
def hexVal (c : Char) : Nat :=
  if 0x30 ≤ c.toNat ∧ c.toNat ≤ 0x39 then c.toNat - 0x30
  else if 0x41 ≤ c.toNat ∧ c.toNat ≤ 0x46 then c.toNat - 0x37
  else if 0x61 ≤ c.toNat ∧ c.toNat ≤ 0x66 then c.toNat - 0x57
  else 0

/-- Byte-level decoding of a form-url-encoded character stream. -/
def percentDecodeBytes : List Char → List Nat
  | [] => []
  | c :: rest =>
    if c = '+' then 0x20 :: percentDecodeBytes rest
    else if c = '%' then
      match rest with
      | h1 :: h2 :: rest2 => (hexVal h1 * 16 + hexVal h2) :: percentDecodeBytes rest2
      | _ => []
    else c.toNat :: percentDecodeBytes rest

/-- UTF-8 decoding, one byte at a time: the state carries the partial code
point value and the number of continuation bytes still expected.  Malformed
or truncated sequences matter only off the round-trip path. -/
def utf8DecodeAux : List Nat → Option (Nat × Nat) → List Nat
  | [], _ => []
  | b :: bs, none =>
    if b < 0x80 then b :: utf8DecodeAux bs none
    else if b < 0xE0 then utf8DecodeAux bs (some (b - 0xC0, 1))
    else if b < 0xF0 then utf8DecodeAux bs (some (b - 0xE0, 2))
    else utf8DecodeAux bs (some (b - 0xF0, 3))
  | b :: bs, some (acc, k) =>
    if k = 1 then (acc * 64 + (b - 0x80)) :: utf8DecodeAux bs none
    else utf8DecodeAux bs (some (acc * 64 + (b - 0x80), k - 1))

/-- UTF-8 decoding of a byte sequence back to code points. -/
def utf8DecodeBytes (bs : List Nat) : List Nat :=
  utf8DecodeAux bs none

/-- Full decoding of a form-url-encoded component back to a string. -/
def formUrlDecode (cs : List Char) : String :=
  ((utf8DecodeBytes (percentDecodeBytes cs)).map Char.ofNat).asString

/-- Split a character list at every occurrence of the separator. -/
def splitOnC (sep : Char) : List Char → List (List Char)
  | [] => [[]]
  | c :: cs =>
    match splitOnC sep cs with
    | [] => if c = sep then [[], []] else [[c]]
    | h :: t => if c = sep then [] :: h :: t else (c :: h) :: t

/-- Split a character list at the first `=`, into key and value. -/
def splitFirstEq : List Char → List Char × List Char
  | [] => ([], [])
  | c :: rest =>
    if c = '=' then ([], rest)
    else ((splitFirstEq rest).1.cons c, (splitFirstEq rest).2)

/-- The part of a URL after the first `?`. -/
def afterQuery : List Char → List Char
  | [] => []
  | c :: rest => if c = '?' then rest else afterQuery rest

/-- Extract and decode a query parameter of a URL. -/
def getParam (url : String) (key : String) : Option String :=
  let pieces := (splitOnC '&' (afterQuery url.toList)).map splitFirstEq
  match pieces.find? (fun p => p.1 = key.toList) with
  | some p => some (formUrlDecode p.2)
  | none => none

/-- Spec-side predicate, stated from the claim's wording: the lower-cased
query occurs as a substring of the composition's name, description, any tag,
any used-in entry (when present), or any capability's name or description
(when present).  Absent optional collections count as empty. -/
def specCompHit (query : String) (c : Composition) : Bool :=
  jsIncludes (strLower c.name) query || jsIncludes (strLower c.description) query ||
  (c.tags.getD []).any (fun tag => jsIncludes (strLower tag) query) ||
  (c.usedIn.getD []).any (fun use => jsIncludes (strLower use) query) ||
  (c.capabilities.getD []).any (fun cap =>
    jsIncludes (strLower cap.name) query || jsIncludes (strLower cap.description) query)

/-- Spec-side predicate, stated from the claim's wording for the module
view: name, description, any tag, or any feature string. -/
def specModuleHit (query : String) (m : CompModule) : Bool :=
  jsIncludes (strLower m.name) query || jsIncludes (strLower m.description) query ||
  (m.tags.getD []).any (fun t => jsIncludes (strLower t) query) ||
  m.features.any (fun feat => jsIncludes (strLower feat) query)

/-- The amended module-view predicate: as `specModuleHit` but without the
feature strings, which the source does not search. -/
def specModuleHitNF (query : String) (m : CompModule) : Bool :=
  jsIncludes (strLower m.name) query || jsIncludes (strLower m.description) query ||
  (m.tags.getD []).any (fun t => jsIncludes (strLower t) query)

/-- Example module mirroring the spec scenario row
`{id:"m1",name:"RLE",category:"Encoder",description:"run length",tags:["lossless"],features:["fast"]}`. -/
def mRLE : CompModule :=
  ⟨"m1", "RLE", "run length", "Encoder", some ["lossless"], ["fast"]⟩

/-- Example module with no tags field. -/
def mNoTags : CompModule :=
  ⟨"m9", "NT", "desc", "Encoder", none, []⟩

/-- Example composition with all optional collections absent. -/
def cNoTags : Composition :=
  ⟨"c9", "Bare", "plain", "CPU", none, none, none⟩

/-- Example composition with a tags field. -/
def cZfp : Composition :=
  ⟨"c1", "ZFP pipeline", "fixed rate", "GPU", some ["lossy"], some ["ExaSky"], some [⟨"random access", "per block"⟩]⟩

/-- Example modules of two interleaved categories, for grouping. -/
def mA1 : CompModule := ⟨"a1", "PredA", "d1", "Predictor", some [], []⟩

/-- Second example module, of another category. -/
def mB1 : CompModule := ⟨"b1", "EncB", "d2", "Encoder", some [], []⟩

/-- Third example module, of the first category again. -/
def mA2 : CompModule := ⟨"a2", "PredC", "d3", "Predictor", some [], []⟩

/-- Example datasets. -/
def dsEmb : Dataset := ⟨"CESM-ATM", some "climate", some "1.47 GB", none, none⟩

/-- A second example dataset. -/
def dsNew : Dataset := ⟨"Fresh", none, none, none, none⟩

section Lemmas

/-- When every candidate fails the candidate loop yields nothing. -/
theorem fetchLoop_eq_none {α : Type} {cs : List (FetchOutcome α)}
    (h : ∀ o ∈ cs, o = .fail) : fetchLoop cs = none := by
  induction cs with
  | nil => rfl
  | cons o rest ih =>
    have ho : o = .fail := h o (List.mem_cons_self o rest)
    subst ho
    exact ih (fun x hx => h x (List.mem_cons_of_mem _ hx))

/-- The override loop in terms of the first successful payload. -/
theorem sdrOverrideLoop_eq (cur : Payload Dataset) (cs : List (FetchOutcome Dataset)) :
    sdrOverrideLoop cur cs =
      (match fetchLoop cs with
       | some (.arr d) => if d.isEmpty then cur else .arr d
       | some .nonArray => cur
       | none => cur) := by
  induction cs with
  | nil => rfl
  | cons o rest ih =>
    cases o with
    | ok p => cases p <;> rfl
    | fail => simpa [sdrOverrideLoop, fetchLoop] using ih

end Lemmas

/-- C3: for every modules or community-datasets load, if every candidate
fails the collection keeps its prior value and the error flag becomes the
(non-empty) banner message; if the first candidate succeeds with an array
payload, that array is adopted, the error stays cleared, and the remaining
candidates are never examined. -/
theorem c3_loader_fallback
    (priorM : Payload CompModule) (priorD : Payload Dataset)
    (cs : List (FetchOutcome CompModule)) (ds : List (FetchOutcome Dataset))
    (d : List CompModule) (e : List Dataset)
    (rest : List (FetchOutcome CompModule)) (restD : List (FetchOutcome Dataset))
    (hcs : cs ≠ []) (hfail : ∀ o ∈ cs, o = .fail)
    (hds : ds ≠ []) (hfailD : ∀ o ∈ ds, o = .fail) :
    loadModulesRun priorM cs = (priorM, modulesErrMsg) ∧ modulesErrMsg ≠ "" ∧
    loadCommunityRun priorD ds = (priorD, communityErrMsg) ∧ communityErrMsg ≠ "" ∧
    loadModulesRun priorM (.ok (.arr d) :: rest) = (.arr d, "") ∧
    loadModulesRun priorM (.ok (.arr d) :: rest) = loadModulesRun priorM [.ok (.arr d)] ∧
    loadCommunityRun priorD (.ok (.arr e) :: restD) = (.arr e, "") ∧
    loadCommunityRun priorD (.ok (.arr e) :: restD) = loadCommunityRun priorD [.ok (.arr e)] := by
  refine ⟨?_, by decide, ?_, by decide, rfl, rfl, rfl, rfl⟩
  · simp [loadModulesRun, fetchLoop_eq_none hfail, hcs]
  · simp [loadCommunityRun, fetchLoop_eq_none hfailD, hds]

/-- C3 witness at concrete inputs: three failing candidates leave the prior
collection and set the banner; a successful first candidate is adopted. -/
theorem c3_loader_fallback_witness :
    ([FetchOutcome.fail, .fail, .fail] ≠ ([] : List (FetchOutcome CompModule))) ∧
    (∀ o ∈ [FetchOutcome.fail, .fail, .fail], o = (.fail : FetchOutcome CompModule)) ∧
    loadModulesRun (.arr [mRLE]) [.fail, .fail, .fail] = (.arr [mRLE], modulesErrMsg) ∧
    loadModulesRun (.arr [mRLE]) [.ok (.arr [mNoTags]), .fail] = (.arr [mNoTags], "") := by
  refine ⟨by decide, by decide, ?_, ?_⟩
  · exact (c3_loader_fallback (.arr [mRLE]) (.arr [dsEmb]) [.fail, .fail, .fail] [.fail]
      [mNoTags] [dsNew] [.fail] [] (by decide) (by decide) (by decide) (by decide)).1
  · exact (c3_loader_fallback (.arr [mRLE]) (.arr [dsEmb]) [.fail, .fail, .fail] [.fail]
      [mNoTags] [dsNew] [.fail] [] (by decide) (by decide) (by decide) (by decide)).2.2.2.2.1

/-- C5: the SDRBench collection ends at the fetched payload exactly when the
first successful candidate carries a non-empty array; in every other case —
including total failure — the embedded default is kept unchanged, and the
`sdrError` flag is never set. -/
theorem c5_sdrbench_override (emb : List Dataset)
    (cs cs' : List (FetchOutcome Dataset)) (d : List Dataset)
    (hd : d ≠ []) (hcs : fetchLoop cs = some (.arr d))
    (hno : ∀ d', fetchLoop cs' = some (.arr d') → d' = []) :
    (∀ cs0 : List (FetchOutcome Dataset), (loadSdrbenchRun (.arr emb) cs0).2 = "") ∧
    loadSdrbenchRun (.arr emb) cs = (.arr d, "") ∧
    (loadSdrbenchRun (.arr emb) cs').1 = .arr emb := by
  refine ⟨fun _ => rfl, ?_, ?_⟩
  · simp only [loadSdrbenchRun, sdrOverrideLoop_eq, hcs, coerceArr]
    simp [List.isEmpty_eq_false.mpr hd]
  · simp only [loadSdrbenchRun, sdrOverrideLoop_eq, coerceArr]
    rcases h : fetchLoop cs' with _ | p
    · rfl
    · cases p with
      | arr d' =>
        have : d' = [] := hno d' h
        subst this
        rfl
      | nonArray => rfl

/-- C5 witness at concrete inputs: a non-empty fetched array replaces the
embedded list; total failure keeps it, with no error in either case. -/
theorem c5_sdrbench_override_witness :
    ([dsNew] ≠ ([] : List Dataset)) ∧
    fetchLoop [FetchOutcome.ok (.arr [dsNew])] = some (.arr [dsNew]) ∧
    (∀ d', fetchLoop ([.fail, .fail] : List (FetchOutcome Dataset)) = some (.arr d') → d' = []) ∧
    loadSdrbenchRun (.arr [dsEmb]) [.ok (.arr [dsNew])] = (.arr [dsNew], "") ∧
    (loadSdrbenchRun (.arr [dsEmb]) [.fail, .fail]).1 = .arr [dsEmb] := by
  have hno : ∀ d', fetchLoop ([.fail, .fail] : List (FetchOutcome Dataset)) = some (.arr d') → d' = [] := by
    intro d' h
    simp [fetchLoop] at h
  refine ⟨by decide, by decide, hno, ?_, ?_⟩
  · exact (c5_sdrbench_override [dsEmb] [.ok (.arr [dsNew])] [.fail, .fail] [dsNew]
      (by decide) (by decide) hno).2.1
  · exact (c5_sdrbench_override [dsEmb] [.ok (.arr [dsNew])] [.fail, .fail] [dsNew]
      (by decide) (by decide) hno).2.2

/-- C6 counterexample: the compositions loader does not follow the shared
fetcher contract — it requests a single candidate URL carrying no
cache-busting query parameter (unlike the three-candidate list built for
`modules.json`), and total failure leaves the error state empty instead of
surfacing a banner. -/
theorem c6_counterexample :
    (compositionsCandidates "/").length = 1 ∧
    compositionsCandidates "/" ≠ candidateUrls "compositions.json" "/" 0 ∧
    jsIncludes ((compositionsCandidates "/").headD "") "?" = false ∧
    loadCompositions (Payload.arr ([] : List Composition)) .fail = (Payload.arr [], "") := by
  refine ⟨rfl, by decide, by decide, rfl⟩

/-- C6 amended: the compositions loader requests exactly one candidate, the
base-qualified path with no cache-busting parameter; a failed fetch leaves
the collection unchanged and surfaces no error, and a successful fetch
adopts the parsed payload as-is. -/
theorem c6_compositions_loader (baseUrl : String) (prior p : Payload Composition) :
    compositionsCandidates baseUrl = [baseUrl ++ "compositions.json"] ∧
    loadCompositions prior .fail = (prior, "") ∧
    loadCompositions prior (.ok p) = (p, "") :=
  ⟨rfl, rfl, rfl⟩

/-- C7 counterexample: a candidate that succeeds with JSON that is not an
array is not treated as a failure — the loader adopts the empty array and
stops, never reaching the later candidate that carries real data. -/
theorem c7_counterexample :
    loadModulesRun (.arr []) [.ok .nonArray, .ok (.arr [mRLE])] = (.arr [], "") ∧
    (Payload.arr ([] : List CompModule)) ≠ .arr [mRLE] := by
  exact ⟨rfl, by decide⟩

/-- C7 amended: only a fetch/JSON-syntax failure makes the loader advance to
the next candidate; a candidate whose body parses as JSON but is not an
array counts as success, stores the empty array, and stops the loop. -/
theorem c7_parse_vs_structure (priorM : Payload CompModule) (priorD : Payload Dataset)
    (rest : List (FetchOutcome CompModule)) (restD : List (FetchOutcome Dataset))
    (hr : rest ≠ []) (hrD : restD ≠ []) :
    loadModulesRun priorM (.ok .nonArray :: rest) = (.arr [], "") ∧
    loadModulesRun priorM (.fail :: rest) = loadModulesRun priorM rest ∧
    loadCommunityRun priorD (.ok .nonArray :: restD) = (.arr [], "") ∧
    loadCommunityRun priorD (.fail :: restD) = loadCommunityRun priorD restD := by
  refine ⟨rfl, ?_, rfl, ?_⟩
  · simp only [loadModulesRun, fetchLoop]
    rcases h : fetchLoop rest with _ | p
    · simp [hr, List.isEmpty_eq_false.mpr hr]
    · rfl
  · simp only [loadCommunityRun, fetchLoop]
    rcases h : fetchLoop restD with _ | p
    · simp [hrD, List.isEmpty_eq_false.mpr hrD]
    · rfl

/-- C7 witness at concrete inputs. -/
theorem c7_parse_vs_structure_witness :
    (([FetchOutcome.ok (.arr [mRLE])] : List (FetchOutcome CompModule)) ≠ []) ∧
    loadModulesRun (.arr []) [.ok .nonArray, .ok (.arr [mRLE])] = (.arr [], "") ∧
    loadModulesRun (.arr []) [.fail, .ok (.arr [mRLE])] =
      loadModulesRun (.arr []) [.ok (.arr [mRLE])] := by
  refine ⟨by decide, ?_, ?_⟩
  · exact (c7_parse_vs_structure (.arr []) (.arr [dsEmb]) [.ok (.arr [mRLE])] [.fail]
      (by decide) (by decide)).1
  · exact (c7_parse_vs_structure (.arr []) (.arr [dsEmb]) [.ok (.arr [mRLE])] [.fail]
      (by decide) (by decide)).2.1

/-- C10: after any run of the three loaders the stored collection is always
an array: a successful payload that is not an array is coerced to the empty
array and a failed load keeps the prior (array) value or the embedded
default. -/
theorem c10_collections_always_arrays (p : List CompModule) (q : List Dataset)
    (emb : Payload Dataset) (cs : List (FetchOutcome CompModule))
    (ds es : List (FetchOutcome Dataset)) :
    (∃ xs, (loadModulesRun (.arr p) cs).1 = .arr xs) ∧
    (∃ ys, (loadCommunityRun (.arr q) ds).1 = .arr ys) ∧
    (∃ zs, (loadSdrbenchRun emb es).1 = .arr zs) := by
  refine ⟨?_, ?_, ?_⟩
  · rcases h : fetchLoop cs with _ | pl
    · exact ⟨p, by simp [loadModulesRun, h]⟩
    · exact ⟨coerceArr pl, by simp [loadModulesRun, h]⟩
  · rcases h : fetchLoop ds with _ | pl
    · exact ⟨q, by simp [loadCommunityRun, h]⟩
    · exact ⟨coerceArr pl, by simp [loadCommunityRun, h]⟩
  · simp only [loadSdrbenchRun, sdrOverrideLoop_eq]
    rcases h : fetchLoop es with _ | pl
    · exact ⟨coerceArr emb, rfl⟩
    · cases pl with
      | arr d =>
        by_cases hd : d.isEmpty
        · exact ⟨coerceArr emb, by simp [hd]⟩
        · exact ⟨d, by simp [hd]⟩
      | nonArray => exact ⟨coerceArr emb, rfl⟩

/-- Membership in the first-occurrence deduplication. -/
theorem mem_setDedup {α : Type} [DecidableEq α] {x : α} {l : List α} :
    x ∈ setDedup l ↔ x ∈ l := by
  induction l with
  | nil => simp [setDedup]
  | cons a as ih =>
    simp only [setDedup, List.mem_cons, List.mem_filter, ih, decide_eq_true_eq]
    constructor
    · rintro (h | ⟨h, _⟩)
      · exact Or.inl h
      · exact Or.inr h
    · rintro (h | h)
      · exact Or.inl h
      · by_cases hxa : x = a
        · exact Or.inl hxa
        · exact Or.inr ⟨h, hxa⟩

/-- The first-occurrence deduplication has no duplicates. -/
theorem nodup_setDedup {α : Type} [DecidableEq α] (l : List α) : (setDedup l).Nodup := by
  induction l with
  | nil => simp [setDedup]
  | cons a as ih =>
    refine List.Nodup.cons ?_ (ih.filter _)
    intro hmem
    rcases List.mem_filter.mp hmem with ⟨_, hne⟩
    simp at hne

/-- With a present tags field the composition match predicate cannot throw
and agrees with the field-wise predicate of the spec. -/
theorem compMatches_eq_hit (query : String) (c : Composition) (ts : List String)
    (h : c.tags = some ts) : compMatches query c = .ok (specCompHit query c) := by
  unfold compMatches specCompHit
  rw [h]
  simp only [Option.getD_some]
  split_ifs <;> simp_all

/-- With a present tags field the module match predicate cannot throw and
agrees with the name/description/tags predicate. -/
theorem moduleMatches_eq_hit (query : String) (m : CompModule) (ts : List String)
    (h : m.tags = some ts) : moduleMatches query m = .ok (specModuleHitNF query m) := by
  unfold moduleMatches specModuleHitNF
  rw [h]
  simp only [Option.getD_some]
  split_ifs <;> simp_all

/-- When the predicate returns without throwing on every member, the
effectful filter agrees with the pure filter. -/
theorem filterE_eq_filter {ε α : Type} (p : α → Except ε Bool) (f : α → Bool)
    {xs : List α} (hp : ∀ x ∈ xs, p x = .ok (f x)) :
    filterE p xs = .ok (xs.filter f) := by
  induction xs with
  | nil => rfl
  | cons x xs ih =>
    have hx := hp x (List.mem_cons_self x xs)
    have ih' := ih (fun y hy => hp y (List.mem_cons_of_mem _ hy))
    rcases hf : f x with _ | _
    · simp [filterE, hx, hf, ih']
    · simp [filterE, hx, hf, ih', Except.map]

/-- C1 amended: for a non-empty query (and items carrying a tags field, as
the data model requires) an item passes the text search exactly when the
lower-cased query occurs in one of its searched fields — name, description,
any tag, any used-in entry or any capability name/description for
compositions, and name, description or any tag (not the feature strings)
for modules. -/
theorem c1_search_fields (ccoll : List Composition) (mcoll : List CompModule)
    (q q' : String) (hq : q ≠ "") (hq' : q' ≠ "")
    (hct : ∀ c ∈ ccoll, c.tags.isSome) (hmt : ∀ m ∈ mcoll, m.tags.isSome) :
    filteredCompositions ccoll "All" q = .ok (ccoll.filter (specCompHit (strLower q))) ∧
    (∀ c, c ∈ ccoll.filter (specCompHit (strLower q)) ↔
        c ∈ ccoll ∧ specCompHit (strLower q) c = true) ∧
    modulesFiltered mcoll q' "all" = .ok (mcoll.filter (specModuleHitNF (strLower q'))) ∧
    (∀ m, m ∈ mcoll.filter (specModuleHitNF (strLower q')) ↔
        m ∈ mcoll ∧ specModuleHitNF (strLower q') m = true) := by
  refine ⟨?_, fun c => List.mem_filter, ?_, fun m => List.mem_filter⟩
  · have hred : filteredCompositions ccoll "All" q = filterE (compMatches (strLower q)) ccoll := by
      unfold filteredCompositions
      simp [hq]
    rw [hred]
    exact filterE_eq_filter _ _ (fun c hc => by
      rcases Option.isSome_iff_exists.mp (hct c hc) with ⟨ts, hts⟩
      exact compMatches_eq_hit _ c ts hts)
  · have h1 : filterE (moduleMatches (strLower q')) mcoll =
        .ok (mcoll.filter (specModuleHitNF (strLower q'))) :=
      filterE_eq_filter _ _ (fun m hm => by
        rcases Option.isSome_iff_exists.mp (hmt m hm) with ⟨ts, hts⟩
        exact moduleMatches_eq_hit _ m ts hts)
    unfold modulesFiltered
    simp [hq', h1, Except.map]

/-- C1 witness at concrete inputs: a tag hit retains the composition and a
name hit retains the module. -/
theorem c1_search_fields_witness :
    (("lossy" : String) ≠ "") ∧
    filteredCompositions [cZfp] "All" "lossy" = .ok [cZfp] ∧
    modulesFiltered [mRLE] "run" "all" = .ok [mRLE] := by
  refine ⟨by decide, ?_, ?_⟩
  · rw [(c1_search_fields [cZfp] [mRLE] "lossy" "run"
      (by decide) (by decide) (by decide) (by decide)).1]
    decide
  · rw [(c1_search_fields [cZfp] [mRLE] "lossy" "run"
      (by decide) (by decide) (by decide) (by decide)).2.2.1]
    decide

/-- C1 counterexample: the claim lists the module feature strings among the
searched fields, but the module search filter does not look at them — a
module whose only hit is a feature string is not retained. -/
theorem c1_counterexample :
    specModuleHit "fast" mRLE = true ∧
    modulesFiltered [mRLE] "fast" "all" = .ok [] := by
  exact ⟨by decide, by decide⟩

/-- C4 counterexample: an item with all optional collections absent makes
the search filter throw a `TypeError` (the unguarded `tags.some` access)
whenever name and description do not match, in both views. -/
theorem c4_counterexample :
    filteredCompositions [cNoTags] "All" "z" = .error "TypeError" ∧
    modulesFiltered [mNoTags] "z" "all" = .error "TypeError" := by
  exact ⟨by decide, by decide⟩

/-- C4 amended: absent `usedIn` and `capabilities` are treated as empty and
never throw, but `tags` must be present: with a tags field the match
predicates return normally (agreeing with the field-wise predicates that
treat absent collections as empty), and whole filter runs succeed on
collections whose items all carry tags. -/
theorem c4_optional_fields (q0 : String) (c : Composition) (m : CompModule)
    (ts ms : List String) (hc : c.tags = some ts) (hm : m.tags = some ms)
    (ccoll : List Composition) (mcoll : List CompModule) (cat cat' q1 q2 : String)
    (hcoll : ∀ x ∈ ccoll, x.tags.isSome) (hmcoll : ∀ x ∈ mcoll, x.tags.isSome) :
    compMatches q0 c = .ok (specCompHit q0 c) ∧
    moduleMatches q0 m = .ok (specModuleHitNF q0 m) ∧
    (∃ res, filteredCompositions ccoll cat q1 = .ok res) ∧
    (∃ res, modulesByCategory mcoll q2 cat' = .ok res) := by
  refine ⟨compMatches_eq_hit _ c ts hc, moduleMatches_eq_hit _ m ms hm, ?_, ?_⟩
  · have hsub : ∀ x ∈ (if cat ≠ "All" then ccoll.filter (fun c0 => c0.category = cat) else ccoll),
        x.tags.isSome := by
      intro x hx
      by_cases hcat : cat ≠ "All"
      · rw [if_pos hcat] at hx
        exact hcoll x (List.mem_filter.mp hx).1
      · rw [if_neg hcat] at hx
        exact hcoll x hx
    unfold filteredCompositions
    by_cases hq : q1 ≠ ""
    · simp only [if_pos hq]
      refine ⟨_, filterE_eq_filter _ (specCompHit (strLower q1)) (fun x hx => ?_)⟩
      rcases Option.isSome_iff_exists.mp (hsub x hx) with ⟨ts0, hts0⟩
      exact compMatches_eq_hit _ x ts0 hts0
    · simp only [if_neg hq]
      exact ⟨_, rfl⟩
  · unfold modulesByCategory modulesFiltered
    by_cases hq : q2 ≠ ""
    · simp only [if_pos hq]
      have h1 : filterE (moduleMatches (strLower q2)) mcoll =
          .ok (mcoll.filter (specModuleHitNF (strLower q2))) :=
        filterE_eq_filter _ _ (fun x hx => by
          rcases Option.isSome_iff_exists.mp (hmcoll x hx) with ⟨ts0, hts0⟩
          exact moduleMatches_eq_hit _ x ts0 hts0)
      rw [h1]
      exact ⟨_, rfl⟩
    · simp only [if_neg hq]
      exact ⟨_, rfl⟩

/-- C4 witness at concrete inputs. -/
theorem c4_optional_fields_witness :
    (cZfp.tags = some ["lossy"] ∧ mRLE.tags = some ["lossless"]) ∧
    compMatches "zfp" cZfp = .ok (specCompHit "zfp" cZfp) ∧
    (∃ res, modulesByCategory [mRLE] "run" "all" = .ok res) := by
  refine ⟨⟨rfl, rfl⟩, ?_, ?_⟩
  · exact (c4_optional_fields "zfp" cZfp mRLE ["lossy"] ["lossless"] rfl rfl
      [cZfp] [mRLE] "All" "all" "lossy" "run" (by decide) (by decide)).1
  · exact (c4_optional_fields "zfp" cZfp mRLE ["lossy"] ["lossless"] rfl rfl
      [cZfp] [mRLE] "All" "all" "lossy" "run" (by decide) (by decide)).2.2.2

/-- First-occurrence deduplication of a snoc: an already-seen element is
dropped, a new one goes to the end. -/
theorem setDedup_append_singleton {α : Type} [DecidableEq α] (l : List α) (x : α) :
    setDedup (l ++ [x]) = if x ∈ l then setDedup l else setDedup l ++ [x] := by
  induction l with
  | nil => simp [setDedup]
  | cons a as ih =>
    have hL : setDedup ((a :: as) ++ [x]) =
        a :: (setDedup (as ++ [x])).filter (fun y => y ≠ a) := rfl
    have hR : setDedup (a :: as) = a :: (setDedup as).filter (fun y => y ≠ a) := rfl
    rw [hL, ih, hR]
    by_cases hxas : x ∈ as
    · rw [if_pos hxas, if_pos (List.mem_cons_of_mem a hxas)]
    · rw [if_neg hxas]
      by_cases hxa : x = a
      · subst hxa
        rw [if_pos (List.mem_cons_self x as), List.filter_append]
        simp
      · rw [if_neg (by simp [hxa, hxas]), List.filter_append]
        simp [hxa]

/-- No element of the list has the given category, so the category filter is
empty. -/
theorem filter_cat_eq_nil (ms : List CompModule) (k : String)
    (h : k ∉ ms.map (·.category)) :
    ms.filter (fun m => m.category = k) = [] := by
  rw [List.filter_eq_nil_iff]
  intro m hm
  simp only [decide_eq_true_eq]
  intro hcontra
  exact h (List.mem_map.mpr ⟨m, hm, hcontra⟩)

/-- The grouping loop of the module view, characterized: buckets appear in
first-occurrence order of the categories, and the bucket of a category is
the filter of the input by that category. -/
theorem groupModules_eq (ms : List CompModule) :
    groupModules ms = (setDedup (ms.map (·.category))).map
      (fun k => (k, ms.filter (fun m => m.category = k))) := by
  induction ms using List.reverseRecOn with
  | nil => rfl
  | append_singleton ms m ih =>
    have hstep : groupModules (ms ++ [m]) = pushToBucket (groupModules ms) m := by
      rw [groupModules, groupModules, List.foldl_append, List.foldl_cons, List.foldl_nil]
    rw [hstep, ih]
    have hany : ((setDedup (ms.map (·.category))).map
        (fun k => (k, ms.filter (fun m0 => m0.category = k)))).any
          (fun p => p.1 = m.category) =
        decide (m.category ∈ ms.map (·.category)) := by
      rcases hmem : decide (m.category ∈ ms.map (·.category)) with _ | _
      · rw [hmem]
        rw [decide_eq_false_iff_not] at hmem
        rw [Bool.eq_false_iff]
        intro hcontra
        rcases List.any_eq_true.mp hcontra with ⟨p, hp, hp2⟩
        rcases List.mem_map.mp hp with ⟨k, hk, rfl⟩
        rw [decide_eq_true_eq] at hp2
        exact hmem (hp2 ▸ mem_setDedup.mp hk)
      · rw [hmem]
        rw [decide_eq_true_eq] at hmem
        refine List.any_eq_true.mpr
          ⟨(m.category, ms.filter (fun m0 => m0.category = m.category)), ?_, by simp⟩
        exact List.mem_map.mpr ⟨m.category, mem_setDedup.mpr hmem, rfl⟩
    have hsd : setDedup ((ms ++ [m]).map (·.category)) =
        if m.category ∈ ms.map (·.category) then setDedup (ms.map (·.category))
        else setDedup (ms.map (·.category)) ++ [m.category] := by
      rw [List.map_append]
      simp only [List.map_cons, List.map_nil]
      exact setDedup_append_singleton _ _
    rw [hsd]
    by_cases hmem : m.category ∈ ms.map (·.category)
    · rw [if_pos hmem]
      rw [pushToBucket, if_pos (by rw [hany]; exact decide_eq_true hmem)]
      rw [List.map_map]
      refine congrArg (fun f => List.map f (setDedup (ms.map (·.category))))
        (funext fun k => ?_)
      simp only [Function.comp, List.filter_append]
      by_cases hk : k = m.category
      · subst hk
        simp
      · have hne : ¬ m.category = k := fun h => hk h.symm
        have hm0 : List.filter (fun m0 => decide (m0.category = k)) [m] = [] := by
          simp only [List.filter_cons, List.filter_nil]
          rw [if_neg (by simp [hne])]
        rw [hm0]
        simp [hne, hk]
    · rw [if_neg hmem]
      rw [pushToBucket, if_neg (by rw [hany]; simp [hmem])]
      rw [List.map_append]
      refine congrArg₂ (· ++ ·) ?_ ?_
      · refine List.map_congr_left (fun k hk => ?_)
        have hkne : k ≠ m.category := by
          intro hcontra
          exact hmem (hcontra ▸ mem_setDedup.mp hk)
        have hne : ¬ m.category = k := fun h => hkne h.symm
        simp only [Function.comp, List.filter_append]
        have hm0 : List.filter (fun m0 => decide (m0.category = k)) [m] = [] := by
          simp only [List.filter_cons, List.filter_nil]
          rw [if_neg (by simp [hne])]
        rw [hm0]
        simp
      · simp only [List.map_cons, List.map_nil, List.filter_append]
        rw [filter_cat_eq_nil ms m.category hmem]
        simp

/-- Looking up a key in a graph of a function returns the function value. -/
theorem lookup_graph {β : Type} (f : String → β) (S : List String) (k : String) (b : β)
    (h : (S.map (fun k0 => (k0, f k0))).lookup k = some b) : b = f k := by
  induction S with
  | nil => simp [List.lookup] at h
  | cons s S ih =>
    simp only [List.map_cons] at h
    rcases hks : (k == s) with _ | _
    · rw [List.lookup_cons, hks] at h
      exact ih h
    · rw [List.lookup_cons, hks] at h
      have hk : k = s := by simpa using hks
      subst hk
      exact (Option.some.inj h).symm

/-- Occurrence count inside a category bucket. -/
theorem count_filter_cat (x : CompModule) (ms : List CompModule) (k : String) :
    List.count x (ms.filter (fun m => m.category = k)) =
      if x.category = k then List.count x ms else 0 := by
  by_cases hx : x.category = k
  · rw [if_pos hx]
    exact List.count_filter (by simp [hx])
  · rw [if_neg hx]
    rw [List.count_eq_zero]
    intro hmem
    exact hx (by simpa using (List.mem_filter.mp hmem).2)

/-- Summing an indicator over a list without duplicates. -/
theorem sum_map_ite (a : String) (n : Nat) :
    ∀ S : List String, S.Nodup →
      (S.map (fun k => if a = k then n else 0)).sum = if a ∈ S then n else 0 := by
  intro S
  induction S with
  | nil => simp
  | cons s S ih =>
    intro hS
    rw [List.nodup_cons] at hS
    obtain ⟨hs, hS'⟩ := hS
    rw [List.map_cons, List.sum_cons, ih hS']
    by_cases has : a = s
    · subst has
      rw [if_pos rfl, if_neg hs, if_pos (List.mem_cons_self a S)]
      omega
    · rw [if_neg has]
      by_cases haS : a ∈ S
      · rw [if_pos haS, if_pos (List.mem_cons_of_mem s haS)]
        omega
      · rw [if_neg haS, if_neg (by simp [has, haS])]

/-- Concatenating the buckets in emission order is a permutation of the
grouped input. -/
theorem flatten_groupModules_perm (ms : List CompModule) :
    (((groupModules ms).map Prod.snd).flatten).Perm ms := by
  rw [groupModules_eq, List.perm_iff_count]
  intro x
  rw [List.count_flatten, List.map_map, List.map_map]
  have hfun : ((List.count x ∘ Prod.snd) ∘ fun k => (k, ms.filter (fun m => m.category = k))) =
      fun k => if x.category = k then List.count x ms else 0 := by
    funext k
    exact count_filter_cat x ms k
  rw [hfun, sum_map_ite _ _ _ (nodup_setDedup _)]
  by_cases hx : x ∈ ms
  · rw [if_pos (mem_setDedup.mpr (List.mem_map.mpr ⟨x, hx, rfl⟩))]
  · rw [List.count_eq_zero.mpr hx]
    simp

/-- C2 counterexample: with interleaved categories the concatenation of the
buckets in emission order is a reordering of the filtered sequence, not the
sequence itself. -/
theorem c2_counterexample :
    ((groupModules [mA1, mB1, mA2]).map Prod.snd).flatten = [mA1, mA2, mB1] ∧
    ((groupModules [mA1, mB1, mA2]).map Prod.snd).flatten ≠ [mA1, mB1, mA2] := by
  exact ⟨by decide, by decide⟩

/-- C2 amended: concatenating the buckets in emission order yields all the
filtered items, none dropped and none duplicated (a permutation of the
filtered sequence), with relative order preserved inside each bucket — the
bucket of a category is exactly the filtered subsequence of that category —
and buckets are emitted in first-occurrence order of the categories. -/
theorem c2_grouping (ms : List CompModule) :
    (groupModules ms).map Prod.fst = setDedup (ms.map (·.category)) ∧
    (((groupModules ms).map Prod.snd).flatten).Perm ms ∧
    (∀ k b, (groupModules ms).lookup k = some b →
      b = ms.filter (fun m => m.category = k)) := by
  refine ⟨?_, flatten_groupModules_perm ms, ?_⟩
  · rw [groupModules_eq, List.map_map]
    have hid : (Prod.fst ∘ fun k => (k, ms.filter (fun m => m.category = k))) = id := rfl
    rw [hid, List.map_id]
  · intro k b h
    rw [groupModules_eq] at h
    exact lookup_graph _ _ _ _ h

/-- C2 witness at concrete inputs. -/
theorem c2_grouping_witness :
    (groupModules [mA1, mB1, mA2]).lookup "Predictor" = some [mA1, mA2] ∧
    [mA1, mA2] = [mA1, mB1, mA2].filter (fun m => m.category = "Predictor") := by
  refine ⟨by decide, ?_⟩
  exact (c2_grouping [mA1, mB1, mA2]).2.2 "Predictor" [mA1, mA2] (by decide)

/-- Every Unicode code point is below `0x110000`. -/
theorem char_toNat_lt (c : Char) : c.toNat < 0x110000 := by
  have h := c.valid
  show c.val.toNat < 0x110000
  rcases h with h | ⟨_, h2⟩
  · omega
  · omega

/-- Unfolding step: an ASCII byte decodes to itself. -/
theorem decAux_ascii (b : Nat) (bs : List Nat) (h : b < 0x80) :
    utf8DecodeAux (b :: bs) none = b :: utf8DecodeAux bs none := by
  simp only [utf8DecodeAux]
  rw [if_pos h]

/-- Unfolding step: a two-byte leader opens a partial code point. -/
theorem decAux_start2 (b : Nat) (bs : List Nat) (h1 : ¬ b < 0x80) (h2 : b < 0xE0) :
    utf8DecodeAux (b :: bs) none = utf8DecodeAux bs (some (b - 0xC0, 1)) := by
  simp only [utf8DecodeAux]
  rw [if_neg h1, if_pos h2]

/-- Unfolding step: a three-byte leader opens a partial code point. -/
theorem decAux_start3 (b : Nat) (bs : List Nat) (h1 : ¬ b < 0xE0) (h2 : b < 0xF0) :
    utf8DecodeAux (b :: bs) none = utf8DecodeAux bs (some (b - 0xE0, 2)) := by
  simp only [utf8DecodeAux]
  rw [if_neg (by omega), if_neg h1, if_pos h2]

/-- Unfolding step: a four-byte leader opens a partial code point. -/
theorem decAux_start4 (b : Nat) (bs : List Nat) (h1 : ¬ b < 0xF0) :
    utf8DecodeAux (b :: bs) none = utf8DecodeAux bs (some (b - 0xF0, 3)) := by
  simp only [utf8DecodeAux]
  rw [if_neg (by omega), if_neg (by omega), if_neg h1]

/-- Unfolding step: the last continuation byte completes the code point. -/
theorem decAux_cont_last (b acc : Nat) (bs : List Nat) :
    utf8DecodeAux (b :: bs) (some (acc, 1)) =
      (acc * 64 + (b - 0x80)) :: utf8DecodeAux bs none := by
  simp only [utf8DecodeAux]
  rw [if_pos trivial]

/-- Unfolding step: an intermediate continuation byte extends the partial
code point. -/
theorem decAux_cont (b acc k : Nat) (bs : List Nat) (hk : k ≠ 1) :
    utf8DecodeAux (b :: bs) (some (acc, k)) =
      utf8DecodeAux bs (some (acc * 64 + (b - 0x80), k - 1)) := by
  simp only [utf8DecodeAux]
  rw [if_neg hk]

/-- Decoding the UTF-8 bytes of one code point in front of a stream peels
off exactly that code point. -/
theorem utf8Decode_encodeChar (n : Nat) (h : n < 0x110000) (rest : List Nat) :
    utf8DecodeAux (utf8EncodeChar n ++ rest) none = n :: utf8DecodeAux rest none := by
  unfold utf8EncodeChar
  by_cases h1 : n < 0x80
  · rw [if_pos h1]
    show utf8DecodeAux (n :: rest) none = _
    rw [decAux_ascii n rest h1]
  · rw [if_neg h1]
    by_cases h2 : n < 0x800
    · rw [if_pos h2]
      show utf8DecodeAux ((0xC0 + n / 64) :: (0x80 + n % 64) :: rest) none = _
      rw [decAux_start2 _ _ (by omega) (by omega), decAux_cont_last]
      refine congrArg (fun t => t :: utf8DecodeAux rest none) ?_
      omega
    · rw [if_neg h2]
      by_cases h3 : n < 0x10000
      · rw [if_pos h3]
        show utf8DecodeAux
            ((0xE0 + n / 4096) :: (0x80 + n / 64 % 64) :: (0x80 + n % 64) :: rest) none = _
        rw [decAux_start3 _ _ (by omega) (by omega), decAux_cont _ _ _ _ (by omega),
          decAux_cont_last]
        refine congrArg (fun t => t :: utf8DecodeAux rest none) ?_
        omega
      · rw [if_neg h3]
        show utf8DecodeAux ((0xF0 + n / 262144) :: (0x80 + n / 4096 % 64) ::
            (0x80 + n / 64 % 64) :: (0x80 + n % 64) :: rest) none = _
        rw [decAux_start4 _ _ (by omega), decAux_cont _ _ _ _ (by omega),
          decAux_cont _ _ _ _ (by omega), decAux_cont_last]
        refine congrArg (fun t => t :: utf8DecodeAux rest none) ?_
        omega

/-- Characters with different code points differ. -/
theorem char_ne_of_toNat {c d : Char} (h : c.toNat ≠ d.toNat) : c ≠ d :=
  fun he => h (he ▸ rfl)

/-- Numeric consequences of being a `URLSearchParams`-safe character. -/
theorem isSafeChar_facts (c : Char) (h : isSafeChar c = true) :
    c.toNat < 0x80 ∧ c.toNat ≠ 0x2B ∧ c.toNat ≠ 0x25 ∧
    c.toNat ≠ 0x26 ∧ c.toNat ≠ 0x3D ∧ c.toNat ≠ 0x3F := by
  unfold isSafeChar at h
  simp only [Bool.or_eq_true, Bool.and_eq_true, decide_eq_true_eq, beq_iff_eq] at h
  rcases h with ((((((h | h) | h) | h) | h) | h) | h) <;> omega

/-- The ASCII branch of the UTF-8 encoder. -/
theorem utf8EncodeChar_ascii (n : Nat) (h : n < 0x80) : utf8EncodeChar n = [n] := by
  unfold utf8EncodeChar
  rw [if_pos h]

/-- All UTF-8 bytes are below 256. -/
theorem utf8EncodeChar_bytes_lt (n : Nat) (h : n < 0x110000) :
    ∀ b ∈ utf8EncodeChar n, b < 256 := by
  intro b hb
  unfold utf8EncodeChar at hb
  split_ifs at hb with h1 h2 h3 <;> simp at hb <;> omega

/-- Hexadecimal digits round-trip through their character form. -/
theorem hexRound : ∀ x, x < 16 → hexVal (hexDig x) = x := by decide

/-- The hexadecimal digit characters are ordinary characters. -/
theorem hexDig_not_special (x : Nat) :
    hexDig x ≠ '&' ∧ hexDig x ≠ '=' ∧ hexDig x ≠ '?' ∧ hexDig x ≠ '+' ∧ hexDig x ≠ '%' := by
  rw [hexDig.eq_def]
  split <;> exact (by decide)

/-- Decoding step for `+`. -/
theorem percentDecode_plus (rest : List Char) :
    percentDecodeBytes ('+' :: rest) = 0x20 :: percentDecodeBytes rest := by
  rw [percentDecodeBytes.eq_def]
  show (if ('+' : Char) = '+' then (0x20 : Nat) :: percentDecodeBytes rest
    else if ('+' : Char) = '%' then
      match rest with
      | h1 :: h2 :: rest2 => (hexVal h1 * 16 + hexVal h2) :: percentDecodeBytes rest2
      | _ => []
    else ('+' : Char).toNat :: percentDecodeBytes rest) = 0x20 :: percentDecodeBytes rest
  rw [if_pos rfl]

/-- Decoding step for a percent escape. -/
theorem percentDecode_pct (h1 h2 : Char) (rest : List Char) :
    percentDecodeBytes ('%' :: h1 :: h2 :: rest) =
      (hexVal h1 * 16 + hexVal h2) :: percentDecodeBytes rest := by
  rw [percentDecodeBytes.eq_def]
  show (if ('%' : Char) = '+' then (0x20 : Nat) :: percentDecodeBytes (h1 :: h2 :: rest)
    else if ('%' : Char) = '%' then
      match h1 :: h2 :: rest with
      | h1 :: h2 :: rest2 => (hexVal h1 * 16 + hexVal h2) :: percentDecodeBytes rest2
      | _ => []
    else ('%' : Char).toNat :: percentDecodeBytes (h1 :: h2 :: rest)) =
      (hexVal h1 * 16 + hexVal h2) :: percentDecodeBytes rest
  rw [if_neg (by decide), if_pos rfl]

/-- Decoding step for an ordinary character. -/
theorem percentDecode_other (c : Char) (rest : List Char) (hp : c ≠ '+') (hq : c ≠ '%') :
    percentDecodeBytes (c :: rest) = c.toNat :: percentDecodeBytes rest := by
  rw [percentDecodeBytes.eq_def]
  show (if c = '+' then (0x20 : Nat) :: percentDecodeBytes rest
    else if c = '%' then
      match rest with
      | h1 :: h2 :: rest2 => (hexVal h1 * 16 + hexVal h2) :: percentDecodeBytes rest2
      | _ => []
    else c.toNat :: percentDecodeBytes rest) = c.toNat :: percentDecodeBytes rest
  rw [if_neg hp, if_neg hq]

/-- Decoding a run of percent-escaped bytes recovers the bytes. -/
theorem percentDecode_pctRun (bs : List Nat) (rest : List Char) (hb : ∀ b ∈ bs, b < 256) :
    percentDecodeBytes ((bs.flatMap fun b => ['%', hexDig (b / 16), hexDig (b % 16)]) ++ rest) =
      bs ++ percentDecodeBytes rest := by
  induction bs with
  | nil => simp
  | cons b bs ih =>
    have hblt : b < 256 := hb b (List.mem_cons_self b bs)
    rw [List.flatMap_cons, List.append_assoc]
    show percentDecodeBytes ('%' :: hexDig (b / 16) :: hexDig (b % 16) ::
      ((bs.flatMap fun b => ['%', hexDig (b / 16), hexDig (b % 16)]) ++ rest)) = _
    rw [percentDecode_pct, ih (fun x hx => hb x (List.mem_cons_of_mem _ hx))]
    rw [hexRound _ (by omega), hexRound _ (by omega)]
    rw [show b / 16 * 16 + b % 16 = b by omega]
    rfl

/-- Decoding the serialization of one character yields its UTF-8 bytes. -/
theorem percentDecode_encChar (c : Char) (rest : List Char) :
    percentDecodeBytes (encChar c ++ rest) = utf8EncodeChar c.toNat ++ percentDecodeBytes rest := by
  unfold encChar
  by_cases hsp : c = ' '
  · rw [if_pos hsp, hsp]
    show percentDecodeBytes ('+' :: rest) = _
    rw [percentDecode_plus]
    rw [show utf8EncodeChar (' '.toNat) = [0x20] from by decide]
    rfl
  · rw [if_neg hsp]
    by_cases hsafe : isSafeChar c
    · rw [if_pos hsafe]
      obtain ⟨hlt, hne2B, hne25, _, _, _⟩ := isSafeChar_facts c hsafe
      show percentDecodeBytes (c :: rest) = _
      rw [percentDecode_other c rest (char_ne_of_toNat (by simpa using hne2B))
        (char_ne_of_toNat (by simpa using hne25))]
      rw [utf8EncodeChar_ascii _ hlt]
      rfl
    · rw [if_neg hsafe]
      exact percentDecode_pctRun _ rest (utf8EncodeChar_bytes_lt _ (char_toNat_lt c))

/-- Decoding the serialization of a character list yields its UTF-8 bytes. -/
theorem percentDecode_encode (s : List Char) (rest : List Char) :
    percentDecodeBytes ((s.flatMap encChar) ++ rest) =
      (s.flatMap fun c => utf8EncodeChar c.toNat) ++ percentDecodeBytes rest := by
  induction s with
  | nil => simp
  | cons c cs ih =>
    rw [List.flatMap_cons, List.append_assoc, percentDecode_encChar, ih,
      List.flatMap_cons, List.append_assoc]

/-- UTF-8 decoding the encoding of a character list yields the code points. -/
theorem utf8Decode_encode_list (cs : List Char) :
    utf8DecodeAux (cs.flatMap fun c => utf8EncodeChar c.toNat) none = cs.map Char.toNat := by
  induction cs with
  | nil => rfl
  | cons c cs ih =>
    rw [List.flatMap_cons, utf8Decode_encodeChar _ (char_toNat_lt c), ih, List.map_cons]

/-- Full round trip: decoding a `URLSearchParams` serialization recovers the
original string. -/
theorem formUrlDecode_encode (s : String) : formUrlDecode (formUrlEncode s) = s := by
  have h1 : percentDecodeBytes (formUrlEncode s) =
      s.toList.flatMap (fun c => utf8EncodeChar c.toNat) := by
    have h := percentDecode_encode s.toList []
    rw [List.append_nil] at h
    rw [show percentDecodeBytes [] = [] from rfl, List.append_nil] at h
    exact h
  unfold formUrlDecode
  rw [h1]
  show ((utf8DecodeAux _ none).map Char.ofNat).asString = s
  rw [utf8Decode_encode_list, List.map_map]
  rw [show (Char.ofNat ∘ Char.toNat) = id from funext Char.ofNat_toNat, List.map_id]
  rfl

/-- Characters emitted by the serializer are never the query delimiters. -/
theorem encChar_not_special (c : Char) : ∀ c0 ∈ encChar c,
    c0 ≠ '&' ∧ c0 ≠ '=' ∧ c0 ≠ '?' := by
  intro c0 hc0
  unfold encChar at hc0
  split_ifs at hc0 with hsp hsafe
  · rw [List.mem_singleton] at hc0
    subst hc0
    exact ⟨by decide, by decide, by decide⟩
  · rw [List.mem_singleton] at hc0
    subst hc0
    obtain ⟨_, _, _, hne26, hne3D, hne3F⟩ := isSafeChar_facts c0 hsafe
    exact ⟨char_ne_of_toNat (by simpa using hne26), char_ne_of_toNat (by simpa using hne3D),
      char_ne_of_toNat (by simpa using hne3F)⟩
  · rcases List.mem_flatMap.mp hc0 with ⟨b, _, hmem⟩
    simp only [List.mem_cons, List.not_mem_nil, or_false] at hmem
    rcases hmem with h | h | h
    · subst h
      exact ⟨by decide, by decide, by decide⟩
    · subst h
      obtain ⟨ha, hb, hc, _, _⟩ := hexDig_not_special (b / 16)
      exact ⟨ha, hb, hc⟩
    · subst h
      obtain ⟨ha, hb, hc, _, _⟩ := hexDig_not_special (b % 16)
      exact ⟨ha, hb, hc⟩

/-- Characters of a serialized component are never the query delimiters. -/
theorem formUrlEncode_not_special (s : String) : ∀ c0 ∈ formUrlEncode s,
    c0 ≠ '&' ∧ c0 ≠ '=' ∧ c0 ≠ '?' := by
  intro c0 hc0
  rcases List.mem_flatMap.mp hc0 with ⟨c, _, hmem⟩
  exact encChar_not_special c c0 hmem

/-- Splitting never produces the empty list of pieces. -/
theorem splitOnC_ne_nil (sep : Char) : ∀ (l : List Char), splitOnC sep l ≠ [] := by
  intro l
  induction l with
  | nil => simp [splitOnC]
  | cons c cs ih =>
    rw [splitOnC.eq_def]
    show (match splitOnC sep cs with
      | [] => if c = sep then [[], []] else [[c]]
      | h :: t => if c = sep then [] :: h :: t else (c :: h) :: t) ≠ []
    rcases hs : splitOnC sep cs with _ | ⟨hh, t⟩
    · exact absurd hs ih
    · by_cases hc : c = sep <;> simp [hc]

/-- Splitting a list that starts with a separator-free piece. -/
theorem splitOnC_append (sep : Char) (a rest : List Char) (h : sep ∉ a) :
    splitOnC sep (a ++ sep :: rest) = a :: splitOnC sep rest := by
  induction a with
  | nil =>
    show splitOnC sep (sep :: rest) = [] :: splitOnC sep rest
    rw [splitOnC.eq_def]
    show (match splitOnC sep rest with
      | [] => if sep = sep then [[], []] else [[sep]]
      | h :: t => if sep = sep then [] :: h :: t else (sep :: h) :: t) = [] :: splitOnC sep rest
    rcases hs : splitOnC sep rest with _ | ⟨hh, t⟩
    · exact absurd hs (splitOnC_ne_nil sep rest)
    · simp
  | cons c a' ih =>
    have hc : c ≠ sep := fun hcc => h (List.mem_cons.mpr (Or.inl hcc.symm))
    have h' : sep ∉ a' := fun hm => h (List.mem_cons_of_mem _ hm)
    show splitOnC sep (c :: (a' ++ sep :: rest)) = (c :: a') :: splitOnC sep rest
    rw [splitOnC.eq_def]
    show (match splitOnC sep (a' ++ sep :: rest) with
      | [] => if c = sep then [[], []] else [[c]]
      | h :: t => if c = sep then [] :: h :: t else (c :: h) :: t) =
        (c :: a') :: splitOnC sep rest
    rw [ih h']
    simp [hc]

/-- Splitting a separator-free list gives a single piece. -/
theorem splitOnC_no_sep (sep : Char) (a : List Char) (h : sep ∉ a) :
    splitOnC sep a = [a] := by
  induction a with
  | nil => rfl
  | cons c a' ih =>
    have hc : c ≠ sep := fun hcc => h (List.mem_cons.mpr (Or.inl hcc.symm))
    have h' : sep ∉ a' := fun hm => h (List.mem_cons_of_mem _ hm)
    rw [splitOnC.eq_def]
    show (match splitOnC sep a' with
      | [] => if c = sep then [[], []] else [[c]]
      | h :: t => if c = sep then [] :: h :: t else (c :: h) :: t) = [c :: a']
    rw [ih h']
    simp [hc]

/-- Splitting at the first equals sign of a well-formed piece. -/
theorem splitFirstEq_append (k v : List Char) (h : '=' ∉ k) :
    splitFirstEq (k ++ '=' :: v) = (k, v) := by
  induction k with
  | nil =>
    show splitFirstEq ('=' :: v) = ([], v)
    rw [splitFirstEq.eq_def]
    show (if ('=' : Char) = '=' then (([] : List Char), v)
      else ((splitFirstEq v).1.cons '=', (splitFirstEq v).2)) = ([], v)
    rw [if_pos rfl]
  | cons c k' ih =>
    have hc : c ≠ '=' := fun hcc => h (List.mem_cons.mpr (Or.inl hcc.symm))
    have h' : '=' ∉ k' := fun hm => h (List.mem_cons_of_mem _ hm)
    show splitFirstEq (c :: (k' ++ '=' :: v)) = (c :: k', v)
    rw [splitFirstEq.eq_def]
    show (if c = '=' then (([] : List Char), k' ++ '=' :: v)
      else ((splitFirstEq (k' ++ '=' :: v)).1.cons c, (splitFirstEq (k' ++ '=' :: v)).2)) =
        (c :: k', v)
    rw [if_neg hc, ih h']

/-- The query extractor skips a question-mark-free base. -/
theorem afterQuery_append (a r : List Char) (h : '?' ∉ a) :
    afterQuery (a ++ '?' :: r) = r := by
  induction a with
  | nil =>
    show afterQuery ('?' :: r) = r
    rw [afterQuery.eq_def]
    show (if ('?' : Char) = '?' then r else afterQuery r) = r
    rw [if_pos rfl]
  | cons c a' ih =>
    have hc : c ≠ '?' := fun hcc => h (List.mem_cons.mpr (Or.inl hcc.symm))
    have h' : '?' ∉ a' := fun hm => h (List.mem_cons_of_mem _ hm)
    show afterQuery (c :: (a' ++ '?' :: r)) = r
    rw [afterQuery.eq_def]
    show (if c = '?' then a' ++ '?' :: r else afterQuery (a' ++ '?' :: r)) = r
    rw [if_neg hc, ih h']

/-- The serialization of three parameters, reassociated into pieces. -/
theorem urlParamsSerialize_three (k1 v1 k2 v2 k3 v3 : String) :
    urlParamsSerialize [(k1, v1), (k2, v2), (k3, v3)] =
      (formUrlEncode k1 ++ '=' :: formUrlEncode v1) ++ '&' ::
      ((formUrlEncode k2 ++ '=' :: formUrlEncode v2) ++ '&' ::
       (formUrlEncode k3 ++ '=' :: formUrlEncode v3)) := by
  simp [urlParamsSerialize, List.append_assoc]

/-- The ampersand never occurs inside a serialized `key=value` piece. -/
theorem amp_not_mem_piece (k v : String) :
    '&' ∉ (formUrlEncode k ++ '=' :: formUrlEncode v) := by
  intro hmem
  rcases List.mem_append.mp hmem with h | h
  · exact (formUrlEncode_not_special k '&' h).1 rfl
  · rcases List.mem_cons.mp h with h | h
    · exact absurd h (by decide)
    · exact (formUrlEncode_not_special v '&' h).1 rfl

/-- C9: for every submission form and resolved repository slug the issue
URL builder produces a URL whose `title` query parameter decodes to
`[Dataset] Contributing <name>` and whose `labels` parameter decodes to
`dataset`; with no resolved slug it produces the generic new-repository URL
instead of failing. -/
theorem c9_issue_url (f : UploadForm) (slug : String) (hs : slug ≠ "")
    (hq : '?' ∉ slug.toList) :
    getParam (buildIssueUrl slug f) "title" = some ("[Dataset] Contributing " ++ f.name) ∧
    getParam (buildIssueUrl slug f) "labels" = some "dataset" ∧
    (∃ q : String, buildIssueUrl "" f = "https://github.com/new" ++ "?" ++ q) := by
  have hbase : '?' ∉ (issueBase slug).toList := by
    rw [issueBase, if_pos hs]
    intro hmem
    have hsplit3 : ("https://github.com/" ++ slug ++ "/issues/new").toList =
        "https://github.com/".toList ++ slug.toList ++ "/issues/new".toList := by
      show (("https://github.com/" ++ slug) ++ "/issues/new").data = _
      rw [String.data_append, String.data_append]
      rfl
    rw [hsplit3] at hmem
    rcases List.mem_append.mp hmem with hmem1 | hmem2
    · rcases List.mem_append.mp hmem1 with hmem3 | hmem4
      · exact absurd hmem3 (by decide)
      · exact hq hmem4
    · exact absurd hmem2 (by decide)
  have htl : (buildIssueUrl slug f).toList =
      (issueBase slug).toList ++ '?' ::
        urlParamsSerialize [("title", issueTitle f), ("body", issueBody f),
          ("labels", "dataset")] := by
    show ((issueBase slug ++ "?") ++
      (urlParamsSerialize [("title", issueTitle f), ("body", issueBody f),
        ("labels", "dataset")]).asString).data = _
    rw [String.data_append, String.data_append]
    rw [List.append_assoc]
    rfl
  have hafter : afterQuery (buildIssueUrl slug f).toList =
      urlParamsSerialize [("title", issueTitle f), ("body", issueBody f),
        ("labels", "dataset")] := by
    rw [htl]
    exact afterQuery_append _ _ hbase
  have hpieces : (splitOnC '&' (afterQuery (buildIssueUrl slug f).toList)).map splitFirstEq =
      [(formUrlEncode "title", formUrlEncode (issueTitle f)),
       (formUrlEncode "body", formUrlEncode (issueBody f)),
       (formUrlEncode "labels", formUrlEncode "dataset")] := by
    rw [hafter, urlParamsSerialize_three]
    rw [splitOnC_append _ _ _ (amp_not_mem_piece _ _)]
    rw [splitOnC_append _ _ _ (amp_not_mem_piece _ _)]
    rw [splitOnC_no_sep _ _ (amp_not_mem_piece _ _)]
    simp only [List.map_cons, List.map_nil]
    rw [splitFirstEq_append _ _ (fun hm => ((formUrlEncode_not_special "title" '=' hm).2.1) rfl),
        splitFirstEq_append _ _ (fun hm => ((formUrlEncode_not_special "body" '=' hm).2.1) rfl),
        splitFirstEq_append _ _ (fun hm => ((formUrlEncode_not_special "labels" '=' hm).2.1) rfl)]
  refine ⟨?_, ?_, ?_⟩
  · simp only [getParam]
    rw [hpieces]
    have hcond1 : (fun p : List Char × List Char => decide (p.1 = "title".toList))
        (formUrlEncode "title", formUrlEncode (issueTitle f)) = true := by
      show decide (formUrlEncode "title" = "title".toList) = true
      decide
    rw [@List.find?_cons_of_pos _ (fun p : List Char × List Char => decide (p.1 = "title".toList))
      (formUrlEncode "title", formUrlEncode (issueTitle f)) _ hcond1]
    show some (formUrlDecode (formUrlEncode (issueTitle f))) = _
    rw [formUrlDecode_encode]
    rfl
  · simp only [getParam]
    rw [hpieces]
    have hcond2 : ¬ (fun p : List Char × List Char => decide (p.1 = "labels".toList))
        (formUrlEncode "title", formUrlEncode (issueTitle f)) = true := by
      show ¬ decide (formUrlEncode "title" = "labels".toList) = true
      decide
    have hcond3 : ¬ (fun p : List Char × List Char => decide (p.1 = "labels".toList))
        (formUrlEncode "body", formUrlEncode (issueBody f)) = true := by
      show ¬ decide (formUrlEncode "body" = "labels".toList) = true
      decide
    have hcond4 : (fun p : List Char × List Char => decide (p.1 = "labels".toList))
        (formUrlEncode "labels", formUrlEncode "dataset") = true := by
      show decide (formUrlEncode "labels" = "labels".toList) = true
      decide
    rw [@List.find?_cons_of_neg _ (fun p : List Char × List Char => decide (p.1 = "labels".toList))
        (formUrlEncode "title", formUrlEncode (issueTitle f)) _ hcond2,
      @List.find?_cons_of_neg _ (fun p : List Char × List Char => decide (p.1 = "labels".toList))
        (formUrlEncode "body", formUrlEncode (issueBody f)) _ hcond3,
      @List.find?_cons_of_pos _ (fun p : List Char × List Char => decide (p.1 = "labels".toList))
        (formUrlEncode "labels", formUrlEncode "dataset") _ hcond4]
    show some (formUrlDecode (formUrlEncode "dataset")) = _
    rw [formUrlDecode_encode]
  · refine ⟨(urlParamsSerialize [("title", issueTitle f), ("body", issueBody f),
      ("labels", "dataset")]).asString, ?_⟩
    show issueBase "" ++ "?" ++ _ = _
    rw [issueBase, if_neg (by simp)]

/-- C9 witness at the concrete scenario of the specification. -/
theorem c9_issue_url_witness :
    (("org/repo" : String) ≠ "" ∧ '?' ∉ ("org/repo" : String).toList) ∧
    getParam (buildIssueUrl "org/repo" ⟨"Foo", "", "", "http://x", ""⟩) "title" =
      some "[Dataset] Contributing Foo" ∧
    getParam (buildIssueUrl "org/repo" ⟨"Foo", "", "", "http://x", ""⟩) "labels" =
      some "dataset" := by
  refine ⟨⟨by decide, by decide⟩, ?_, ?_⟩
  · exact (c9_issue_url ⟨"Foo", "", "", "http://x", ""⟩ "org/repo" (by decide) (by decide)).1
  · exact (c9_issue_url ⟨"Foo", "", "", "http://x", ""⟩ "org/repo" (by decide) (by decide)).2.1

/-- C8: in both views the facet list is the view's sentinel followed by the
distinct category values of the full collection in case-sensitive sorted
order; the sentinel is always first, even for the empty collection. -/
theorem c8_facet_lists (ccoll : List Composition) (mcoll : List CompModule) :
    (categoriesC ccoll).head? = some "All" ∧
    List.Sorted (· ≤ ·) (categoriesC ccoll).tail ∧
    (categoriesC ccoll).tail.Nodup ∧
    (∀ s, s ∈ (categoriesC ccoll).tail ↔ ∃ c ∈ ccoll, c.category = s) ∧
    (categoriesM mcoll).head? = some "all" ∧
    List.Sorted (· ≤ ·) (categoriesM mcoll).tail ∧
    (categoriesM mcoll).tail.Nodup ∧
    (∀ s, s ∈ (categoriesM mcoll).tail ↔ ∃ m ∈ mcoll, m.category = s) := by
  refine ⟨rfl, ?_, ?_, ?_, rfl, ?_, ?_, ?_⟩
  · exact List.sorted_insertionSort _ _
  · exact ((List.perm_insertionSort _ _).nodup_iff).mpr (nodup_setDedup _)
  · intro s
    rw [show (categoriesC ccoll).tail = List.insertionSort (· ≤ ·)
        (setDedup (ccoll.map (·.category))) from rfl]
    rw [(List.perm_insertionSort (· ≤ ·) _).mem_iff, mem_setDedup, List.mem_map]
  · exact List.sorted_insertionSort _ _
  · exact ((List.perm_insertionSort _ _).nodup_iff).mpr (nodup_setDedup _)
  · intro s
    rw [show (categoriesM mcoll).tail = List.insertionSort (· ≤ ·)
        (setDedup (mcoll.map (·.category))) from rfl]
    rw [(List.perm_insertionSort (· ≤ ·) _).mem_iff, mem_setDedup, List.mem_map]

end ZHub
